import Mathlib

set_option linter.unusedVariables false

/-!
Shallow embedding of the AI code iterator repository: the JSON recovery
chain of the safeJsonParse normalizer, the iterateCode server action
(src/actions.ts) and the HTTP POST route handler (the route file).
Exceptions are modelled with Option and explicit outcome types; the
external text-generation call is a parameter (its returned raw text),
and each model records whether that call was reached.
-/

/-- The opening curly brace character (code point 123). -/
def lbrace : Char := Char.ofNat 123

/-- The closing curly brace character (code point 125). -/
def rbrace : Char := Char.ofNat 125

/-- JSON values as produced by a successful JSON.parse. A number keeps its
signed integer part, its fraction digits and its exponent, which is enough
to decide JavaScript truthiness and to compare parsed literals. -/
inductive Json where
  | null
  | bool (b : Bool)
  | num (m : Int) (frac : List Char) (exp : Int)
  | str (s : String)
  | arr (elems : List Json)
  | obj (fields : List (String × Json))

/-- JSON whitespace accepted between tokens: space, tab, newline, carriage return. -/
def isJsonWs (c : Char) : Bool :=
  c == ' ' || c == '\t' || c == '\n' || c == '\r'

/-- Skip leading JSON whitespace. -/
def skipWs (cs : List Char) : List Char := cs.dropWhile isJsonWs

/-- Decimal digits of a numeric literal, folded into a natural number. -/
def digitsToNat (ds : List Char) : Nat :=
  List.foldl (fun n c => n * 10 + (c.toNat - 48)) 0 ds

/-- Value of a hexadecimal digit, used for unicode escapes in strings. -/
def hexVal (c : Char) : Option Nat :=
  if c.isDigit then some (c.toNat - 48)
  else if 97 ≤ c.toNat ∧ c.toNat ≤ 102 then some (c.toNat - 87)
  else if 65 ≤ c.toNat ∧ c.toNat ≤ 70 then some (c.toNat - 55)
  else none

/-- The character denoted by a single-character JSON string escape. -/
def escChar (c : Char) : Option Char :=
  if c = '"' then some '"'
  else if c = '\\' then some '\\'
  else if c = '/' then some '/'
  else if c = 'b' then some (Char.ofNat 8)
  else if c = 'f' then some (Char.ofNat 12)
  else if c = 'n' then some '\n'
  else if c = 'r' then some '\r'
  else if c = 't' then some '\t'
  else none

/-- Parse the body of a JSON string after its opening quote, returning the
decoded characters and the remaining input after the closing quote. Raw
control characters are rejected, as JSON.parse rejects them. -/
def parseStrChars : Nat → List Char → Option (List Char × List Char)
  | 0, _ => none
  | fuel + 1, cs =>
    match cs with
    | [] => none
    | c :: rest =>
      if c = '"' then some ([], rest)
      else if c = '\\' then
        match rest with
        | 'u' :: h1 :: h2 :: h3 :: h4 :: rest2 =>
          match hexVal h1, hexVal h2, hexVal h3, hexVal h4 with
          | some a, some b, some c2, some d =>
            match parseStrChars fuel rest2 with
            | some (tail, rem) =>
              some (Char.ofNat (((a * 16 + b) * 16 + c2) * 16 + d) :: tail, rem)
            | none => none
          | _, _, _, _ => none
        | e :: rest2 =>
          match escChar e with
          | some ec =>
            match parseStrChars fuel rest2 with
            | some (tail, rem) => some (ec :: tail, rem)
            | none => none
          | none => none
        | [] => none
      else if c.toNat < 32 then none
      else
        match parseStrChars fuel rest with
        | some (tail, rem) => some (c :: tail, rem)
        | none => none

/-- Parse the optional exponent of a numeric literal and build the value. -/
def parseExp (m : Int) (frac : List Char) (cs : List Char) : Option (Json × List Char) :=
  match cs with
  | [] => some (Json.num m frac 0, [])
  | c :: rest =>
    if c = 'e' ∨ c = 'E' then
      match rest with
      | '+' :: r =>
        let es := r.takeWhile Char.isDigit
        if es.isEmpty then none
        else some (Json.num m frac (Int.ofNat (digitsToNat es)), r.dropWhile Char.isDigit)
      | '-' :: r =>
        let es := r.takeWhile Char.isDigit
        if es.isEmpty then none
        else some (Json.num m frac (-Int.ofNat (digitsToNat es)), r.dropWhile Char.isDigit)
      | r =>
        let es := r.takeWhile Char.isDigit
        if es.isEmpty then none
        else some (Json.num m frac (Int.ofNat (digitsToNat es)), r.dropWhile Char.isDigit)
    else some (Json.num m frac 0, c :: rest)

/-- Parse a JSON numeric literal: optional minus sign, integer part without
leading zeros, optional fraction, optional exponent. -/
def parseNumber (cs : List Char) : Option (Json × List Char) :=
  let signAndRest : Bool × List Char :=
    match cs with
    | '-' :: rest => (true, rest)
    | _ => (false, cs)
  let neg := signAndRest.fst
  let cs1 := signAndRest.snd
  let ds := cs1.takeWhile Char.isDigit
  let cs2 := cs1.dropWhile Char.isDigit
  if ds.isEmpty then none
  else if 1 < ds.length ∧ ds.head? = some '0' then none
  else
    let intVal : Int := Int.ofNat (digitsToNat ds)
    let m : Int := if neg then -intVal else intVal
    match cs2 with
    | '.' :: cs3 =>
      let fs := cs3.takeWhile Char.isDigit
      if fs.isEmpty then none
      else parseExp m fs (cs3.dropWhile Char.isDigit)
    | _ => parseExp m [] cs2

/-- Insert a key-value pair into an object under construction, overwriting
the value in place when the key already occurs, as JavaScript objects do. -/
def insertField (fs : List (String × Json)) (k : String) (v : Json) : List (String × Json) :=
  match fs with
  | [] => [(k, v)]
  | (k2, v2) :: rest =>
    if k2 = k then (k2, v) :: rest else (k2, v2) :: insertField rest k v

/-- Look up a field of a parsed object by key. -/
def lookupField (fs : List (String × Json)) (k : String) : Option Json :=
  match fs with
  | [] => none
  | (k2, v) :: rest => if k2 = k then some v else lookupField rest k

mutual

/-- Parse a single JSON value starting at the first character of the input. -/
def parseValue : Nat → List Char → Option (Json × List Char)
  | 0, _ => none
  | fuel + 1, cs =>
    match cs with
    | [] => none
    | c :: rest =>
      if c = lbrace then parseObjStart fuel rest
      else if c = '[' then parseArrStart fuel rest
      else if c = '"' then
        match parseStrChars (rest.length + 1) rest with
        | some (body, rem) => some (Json.str (String.mk body), rem)
        | none => none
      else if c = 't' then
        match rest with
        | 'r' :: 'u' :: 'e' :: rem => some (Json.bool true, rem)
        | _ => none
      else if c = 'f' then
        match rest with
        | 'a' :: 'l' :: 's' :: 'e' :: rem => some (Json.bool false, rem)
        | _ => none
      else if c = 'n' then
        match rest with
        | 'u' :: 'l' :: 'l' :: rem => some (Json.null, rem)
        | _ => none
      else if c = '-' ∨ c.isDigit then parseNumber cs
      else none

/-- Parse a JSON value surrounded by optional whitespace. -/
def parseElement : Nat → List Char → Option (Json × List Char)
  | 0, _ => none
  | fuel + 1, cs =>
    match parseValue fuel (skipWs cs) with
    | some (v, rest) => some (v, skipWs rest)
    | none => none

/-- Parse the remainder of an object after its opening brace. -/
def parseObjStart : Nat → List Char → Option (Json × List Char)
  | 0, _ => none
  | fuel + 1, cs =>
    match skipWs cs with
    | [] => none
    | c :: rest =>
      if c = rbrace then some (Json.obj [], rest)
      else parseMembers fuel [] (c :: rest)

/-- Parse the members of a nonempty object, accumulating its fields. -/
def parseMembers : Nat → List (String × Json) → List Char → Option (Json × List Char)
  | 0, _, _ => none
  | fuel + 1, acc, cs =>
    match skipWs cs with
    | '"' :: rest =>
      match parseStrChars (rest.length + 1) rest with
      | some (key, rem) =>
        match skipWs rem with
        | ':' :: rem2 =>
          match parseElement fuel rem2 with
          | some (v, rem3) =>
            match rem3 with
            | ',' :: rem4 => parseMembers fuel (insertField acc (String.mk key) v) rem4
            | c :: rem4 =>
              if c = rbrace then some (Json.obj (insertField acc (String.mk key) v), rem4)
              else none
            | [] => none
          | none => none
        | _ => none
      | none => none
    | _ => none

/-- Parse the remainder of an array after its opening bracket. -/
def parseArrStart : Nat → List Char → Option (Json × List Char)
  | 0, _ => none
  | fuel + 1, cs =>
    match skipWs cs with
    | [] => none
    | c :: rest =>
      if c = ']' then some (Json.arr [], rest)
      else parseArrElems fuel [] (c :: rest)

/-- Parse the elements of a nonempty array, accumulating them. -/
def parseArrElems : Nat → List Json → List Char → Option (Json × List Char)
  | 0, _, _ => none
  | fuel + 1, acc, cs =>
    match parseElement fuel cs with
    | some (v, rem) =>
      match rem with
      | ',' :: rem2 => parseArrElems fuel (acc ++ [v]) rem2
      | c :: rem2 => if c = ']' then some (Json.arr (acc ++ [v]), rem2) else none
      | [] => none
    | none => none

end

/-- Fuel bound that is always sufficient for an input of this length. -/
def fuelFor (cs : List Char) : Nat := 8 * cs.length + 16

/-- Model of JSON.parse on a character list: parses a single JSON value
surrounded by optional whitespace and demands that the whole input is
consumed; returns none exactly when JSON.parse would throw. -/
def jsonParse (cs : List Char) : Option Json :=
  match parseElement (fuelFor cs) cs with
  | some (v, rest) => if rest.isEmpty then some v else none
  | none => none

/-- Predicate used by the brace-span search: true while the character is
not an opening brace. -/
def notLB (c : Char) : Bool := !(c == lbrace)

/-- Predicate used by the brace-span search: true while the character is
not a closing brace. -/
def notRB (c : Char) : Bool := !(c == rbrace)

/-- Model of the greedy regex match over the text: drop everything before
the first opening brace, then cut everything after the last closing brace;
the result is the span from the first opening brace to the last closing
brace, or none when no such span exists. -/
def braceSpan (cs : List Char) : Option (List Char) :=
  if (((cs.dropWhile notLB).reverse.dropWhile notRB).reverse).isEmpty then none
  else some (((cs.dropWhile notLB).reverse.dropWhile notRB).reverse)

/-- The fixed diagnostic explanation used by the synthetic fallback result. -/
def diagMsg : String :=
  "The AI response couldn\x27t be parsed as JSON. Showing raw response instead."

/-- The synthetic result built from the raw text when all parsing fails. -/
def fallbackResult (text : String) : Json :=
  Json.obj [("modifiedCode", Json.str text), ("explanation", Json.str diagMsg)]

/-- Model of safeJsonParse: direct parse of the whole text, then parse of
the greedy brace-delimited span, then the synthetic raw-text result. The
source catches every exception, so the model is a total function. -/
def safeJsonParse (text : String) : Json :=
  match jsonParse text.data with
  | some v => v
  | none =>
    match braceSpan text.data with
    | some span =>
      match jsonParse span with
      | some v => v
      | none => fallbackResult text
    | none => fallbackResult text

/-- JavaScript truthiness of a parsed JSON value: null, false, zero and
the empty string are falsy, everything else is truthy. -/
def truthy : Json → Bool
  | Json.null => false
  | Json.bool b => b
  | Json.num m frac _ => !(m == 0 && frac.all (fun c => c == '0'))
  | Json.str s => !(s == "")
  | Json.arr _ => true
  | Json.obj _ => true

/-- Truthiness of a possibly undefined value; undefined is falsy. -/
def truthyOpt : Option Json → Bool
  | none => false
  | some v => truthy v

/-- Whether a parsed value is the JSON null literal, the one value on which
a field access raises a TypeError. -/
def jsonIsNull : Json → Bool
  | Json.null => true
  | _ => false

/-- JavaScript property access on a non-null parsed value: a field of an
object, undefined otherwise. -/
def jsGetD (j : Json) (k : String) : Option Json :=
  match j with
  | Json.obj fs => lookupField fs k
  | _ => none

/-- Whether a value is an IterationResult: an object with string fields
modifiedCode and explanation. -/
def isIterationResult : Json → Bool
  | Json.obj fs =>
    match lookupField fs "modifiedCode", lookupField fs "explanation" with
    | some (Json.str _), some (Json.str _) => true
    | _, _ => false
  | _ => false

/-- The placeholder code comment substituted when both the parsed field and
the raw text are empty. -/
def noCodeMsg : String := "// Error: No code was generated"

/-- The fixed incomplete-response explanation substituted for a missing
explanation field. -/
def incompleteMsg : String := "The AI response was incomplete. Please try again."

/-- The configuration error message for a missing API key. -/
def configMsg : String :=
  "OpenAI API key is not configured. Please contact the administrator."

/-- The generic failure message of the server action for non-Error throws. -/
def genericFailMsg : String :=
  "Failed to process your request. Please check your inputs and try again."

/-- The generic failure message of the HTTP route catch-all handler. -/
def routeGenericMsg : String := "An unexpected error occurred"

/-- The client-error message of the HTTP route for missing input. -/
def badReqMsg : String := "Code and prompt are required"

/-- The chain modifiedCode or raw text or placeholder, mirroring the
JavaScript or-expression in the substitution branch. -/
def jsOrRawText (v : Option Json) (text : String) : Json :=
  if truthyOpt v then v.getD Json.null
  else if text = "" then Json.str noCodeMsg
  else Json.str text

/-- The chain explanation or fixed incomplete-response message. -/
def jsOrMsg (v : Option Json) : Json :=
  if truthyOpt v then v.getD Json.null else Json.str incompleteMsg

/-- Outcome of the iterateCode server action: a thrown configuration error,
a TypeError from accessing fields of a null parse result, or a returned
pair of field values. -/
inductive IterateOutcome where
  | configError (msg : String)
  | typeError
  | ok (modifiedCode explanation : Json)

/-- A run of iterateCode: whether the external generation call was reached,
the user message sent to it if so, and the outcome. -/
structure IterateRun where
  calledGen : Bool
  sentUserMessage : Option String
  result : IterateOutcome

/-- Truthiness of an environment variable: unset or empty is falsy. -/
def envTruthy : Option String → Bool
  | none => false
  | some s => !(s == "")

/-- The user message composed from the code and the change request. -/
def userMessage (code prompt : String) : String :=
  "Code:\n" ++ code ++ "\n\nChange Request:\n" ++ prompt

/-- The post-processing of iterateCode after the generation call returned
the raw text: parse, then validate and substitute the two fields. -/
def iterateBody (text : String) : IterateOutcome :=
  let parsed := safeJsonParse text
  if jsonIsNull parsed then IterateOutcome.typeError
  else
    let mc := jsGetD parsed "modifiedCode"
    let ex := jsGetD parsed "explanation"
    if !truthyOpt mc || !truthyOpt ex then
      IterateOutcome.ok (jsOrRawText mc text) (jsOrMsg ex)
    else
      IterateOutcome.ok (mc.getD Json.null) (ex.getD Json.null)

/-- Model of the iterateCode server action. It checks the API key, then
always proceeds to the external generation call; the raw text that call
returns is the genText parameter. The code and prompt inputs are never
validated here. -/
def iterateCode (apiKey : Option String) (code prompt : String) (genText : String) : IterateRun :=
  if envTruthy apiKey then
    ⟨true, some (userMessage code prompt), iterateBody genText⟩
  else
    ⟨false, none, IterateOutcome.configError configMsg⟩

/-- Outcome of the HTTP route: a 400 client error, a 500 configuration
error, or a 200 response whose payload is the parsed value as-is. -/
inductive RouteOutcome where
  | badRequest (msg : String)
  | configError (msg : String)
  | payload (j : Json)

/-- A run of the HTTP route handler. -/
structure RouteRun where
  calledGen : Bool
  sentUserMessage : Option String
  result : RouteOutcome

/-- Model of the POST route handler: validates that code and prompt are
non-empty, checks the API key, invokes the generation call and returns the
parse result without any field substitution. -/
def POST (apiKey : Option String) (code prompt : String) (genText : String) : RouteRun :=
  if code == "" || prompt == "" then
    ⟨false, none, RouteOutcome.badRequest badReqMsg⟩
  else if envTruthy apiKey then
    ⟨true, some (userMessage code prompt), RouteOutcome.payload (safeJsonParse genText)⟩
  else
    ⟨false, none, RouteOutcome.configError configMsg⟩

/-- Every contiguous substring of a character list, as a list of spans. -/
def allSubstrings (cs : List Char) : List (List Char) :=
  (List.range (cs.length + 1)).flatMap
    (fun i => (List.range (cs.length + 1)).map (fun n => (cs.drop i).take n))

/-- Raw text of the prose-wrapped scenario: a valid two-field JSON object
with commentary before and after it. -/
def wrappedText : String :=
  "Sure! \x7b\"modifiedCode\":\"x=1\",\"explanation\":\"set x\"\x7d Hope this helps!"

/-- The commentary before the embedded object of wrappedText. -/
def wrappedPre : List Char := ("Sure! ").data

/-- The embedded object text of wrappedText. -/
def wrappedObj : List Char :=
  ("\x7b\"modifiedCode\":\"x=1\",\"explanation\":\"set x\"\x7d").data

/-- The commentary after the embedded object of wrappedText. -/
def wrappedSuf : List Char := (" Hope this helps!").data

/-- The fields of the embedded object of wrappedText. -/
def wrappedFields : List (String × Json) :=
  [("modifiedCode", Json.str "x=1"), ("explanation", Json.str "set x")]

/-- Prose-wrapped object whose explanation field is the empty string. -/
def emptyExplText : String :=
  "Sure! \x7b\"modifiedCode\":\"x\",\"explanation\":\"\"\x7d Bye"

/-- A valid JSON object missing the explanation field. -/
def missingExplText : String := "\x7b\"modifiedCode\":\"x\"\x7d"

/-- A valid JSON object missing the modifiedCode field. -/
def missingCodeText : String := "\x7b\"explanation\":\"e\"\x7d"

/-- The strict two-field scenario object returned by a cooperating model. -/
def strictText : String :=
  "\x7b\"modifiedCode\":\"function f()\x7bconsole.log(1)\x7d\",\"explanation\":\"added log\"\x7d"

/-- The fields of strictText. -/
def strictFields : List (String × Json) :=
  [("modifiedCode", Json.str "function f()\x7bconsole.log(1)\x7d"),
   ("explanation", Json.str "added log")]

/-- Plain prose with no braces and no parseable JSON substring. -/
def proseText : String := "Hi there."

/-- A valid object followed by prose containing a later stray closing
brace, which defeats the greedy span heuristic. -/
def strayText : String :=
  "\x7b\"modifiedCode\":\"x\",\"explanation\":\"y\"\x7d Note the \x7d here"

/-- The greedy span of strayText: from its first opening brace to its last
closing brace, over-capturing past the embedded object. -/
def straySpan : String :=
  "\x7b\"modifiedCode\":\"x\",\"explanation\":\"y\"\x7d Note the \x7d"

/-- A successful direct parse is returned by safeJsonParse as-is. -/
theorem safeJsonParse_direct (text : String) (v : Json)
    (h : jsonParse text.data = some v) : safeJsonParse text = v := by
  simp [safeJsonParse, h]

/-- When the direct parse fails and the brace span parses, safeJsonParse
returns the span parse result. -/
theorem safeJsonParse_span (text : String) (s : List Char) (v : Json)
    (h1 : jsonParse text.data = none) (h2 : braceSpan text.data = some s)
    (h3 : jsonParse s = some v) : safeJsonParse text = v := by
  simp [safeJsonParse, h1, h2, h3]

/-- When the direct parse fails and no brace span exists, safeJsonParse
returns the synthetic fallback result. -/
theorem safeJsonParse_fb_noSpan (text : String)
    (h1 : jsonParse text.data = none) (h2 : braceSpan text.data = none) :
    safeJsonParse text = fallbackResult text := by
  simp [safeJsonParse, h1, h2]

/-- When both parse attempts fail, safeJsonParse returns the synthetic
fallback result. -/
theorem safeJsonParse_fb_badSpan (text : String) (s : List Char)
    (h1 : jsonParse text.data = none) (h2 : braceSpan text.data = some s)
    (h3 : jsonParse s = none) : safeJsonParse text = fallbackResult text := by
  simp [safeJsonParse, h1, h2, h3]

/-- Dropping while a predicate holds skips a first block on which it holds
everywhere. -/
theorem dropWhile_append_all {α : Type} (p : α → Bool) (l1 l2 : List α)
    (h : ∀ c ∈ l1, p c = true) :
    (l1 ++ l2).dropWhile p = l2.dropWhile p := by
  induction l1 with
  | nil => simp
  | cons x xs ih =>
    have hx : p x = true := h x (by simp)
    rw [List.cons_append, List.dropWhile_cons_of_pos hx]
    exact ih (fun c hc => h c (by simp [hc]))

/-- The head of a dropWhile result falsifies the predicate. -/
theorem dropWhile_head_false {α : Type} (p : α → Bool) (l : List α) (c : α)
    (l2 : List α) (h : l.dropWhile p = c :: l2) : p c = false := by
  induction l with
  | nil => simp at h
  | cons x xs ih =>
    rw [List.dropWhile_cons] at h
    by_cases hx : p x
    · rw [if_pos hx] at h; exact ih h
    · rw [if_neg hx] at h
      injection h with h1 h2
      subst h1
      simpa using hx

/-- Shape of a successful brace-span search. -/
theorem braceSpan_some_shape (cs s : List Char) (h : braceSpan cs = some s) :
    s = ((cs.dropWhile notLB).reverse.dropWhile notRB).reverse ∧ s ≠ [] := by
  unfold braceSpan at h
  by_cases he : ((((cs.dropWhile notLB).reverse.dropWhile notRB).reverse).isEmpty : Bool) = true
  · rw [if_pos he] at h; simp at h
  · rw [if_neg he] at h
    injection h with h1
    refine ⟨h1.symm, ?_⟩
    intro hnil
    rw [hnil] at h1
    rw [h1] at he
    simp at he

/-- A successful brace-span search returns the span from the first opening
brace to the last closing brace: the span is a contiguous piece of the
input, nothing before it is an opening brace, nothing after it is a
closing brace, and it is delimited by an opening and a closing brace. -/
theorem braceSpan_decomp (cs s : List Char) (h : braceSpan cs = some s) :
    ∃ a b, cs = a ++ (s ++ b) ∧ (∀ c ∈ a, c ≠ lbrace) ∧ (∀ c ∈ b, c ≠ rbrace) ∧
      s.head? = some lbrace ∧ s.getLast? = some rbrace := by
  obtain ⟨hs, hne⟩ := braceSpan_some_shape cs s h
  have h2 : (cs.dropWhile notLB).reverse.takeWhile notRB ++
      (cs.dropWhile notLB).reverse.dropWhile notRB = (cs.dropWhile notLB).reverse :=
    List.takeWhile_append_dropWhile notRB _
  have h3 : cs.dropWhile notLB =
      s ++ ((cs.dropWhile notLB).reverse.takeWhile notRB).reverse := by
    have h4 := congrArg List.reverse h2
    rw [List.reverse_append, List.reverse_reverse] at h4
    rw [hs]
    exact h4.symm
  have hbmem : ∀ c ∈ ((cs.dropWhile notLB).reverse.takeWhile notRB).reverse, c ≠ rbrace := by
    intro c hc
    rw [List.mem_reverse] at hc
    have := List.mem_takeWhile_imp hc
    simpa [notRB] using this
  obtain ⟨bb, h3x, hbb⟩ : ∃ bb, cs.dropWhile notLB = s ++ bb ∧ ∀ c ∈ bb, c ≠ rbrace :=
    ⟨_, h3, hbmem⟩
  have hsrev : s.reverse = (cs.dropWhile notLB).reverse.dropWhile notRB := by
    rw [hs, List.reverse_reverse]
  have hlast : s.getLast? = some rbrace := by
    cases hsr : s.reverse with
    | nil =>
      rw [List.reverse_eq_nil_iff] at hsr
      exact absurd hsr hne
    | cons r0 rtail =>
      have hhf : notRB r0 = false :=
        dropWhile_head_false notRB (cs.dropWhile notLB).reverse r0 rtail
          (by rw [← hsrev, hsr])
      have hr : r0 = rbrace := by simpa [notRB] using hhf
      have hh : s.getLast? = some r0 := by
        rw [← List.head?_reverse, hsr]
        rfl
      rw [hh, hr]
  have hhead : s.head? = some lbrace := by
    cases hsc : s with
    | nil => exact absurd hsc hne
    | cons s0 stail =>
      have hhf : notLB s0 = false := by
        refine dropWhile_head_false notLB cs s0 (stail ++ bb) ?_
        rw [h3x, hsc, List.cons_append]
      have : s0 = lbrace := by simpa [notLB] using hhf
      simp [this]
  refine ⟨cs.takeWhile notLB, bb, ?_, ?_, hbb, hhead, hlast⟩
  · conv_lhs => rw [← List.takeWhile_append_dropWhile notLB cs]
    rw [h3x]
  · intro c hc
    have := List.mem_takeWhile_imp hc
    simpa [notLB] using this

/-- The brace span is a contiguous substring of the input. -/
theorem braceSpan_sub (cs s : List Char) (h : braceSpan cs = some s) :
    ∃ a b, cs = a ++ (s ++ b) := by
  obtain ⟨a, b, hab, -, -, -, -⟩ := braceSpan_decomp cs s h
  exact ⟨a, b, hab⟩

/-- On a text made of a brace-free prefix, an embedded brace-delimited
span, and a brace-free suffix, the brace-span search returns exactly the
embedded span. -/
theorem braceSpan_extract (pre mid suf : List Char)
    (hpre : ∀ c ∈ pre, c ≠ lbrace)
    (hsuf : ∀ c ∈ suf, c ≠ rbrace)
    (hhead : mid.head? = some lbrace)
    (hlast : mid.getLast? = some rbrace) :
    braceSpan (pre ++ (mid ++ suf)) = some mid := by
  obtain ⟨mtail, hmid⟩ : ∃ mtail, mid = lbrace :: mtail := by
    cases mid with
    | nil => simp at hhead
    | cons m0 mt =>
      refine ⟨mt, ?_⟩
      simp only [List.head?_cons, Option.some.injEq] at hhead
      rw [hhead]
  have step1 : (pre ++ (mid ++ suf)).dropWhile notLB = mid ++ suf := by
    rw [dropWhile_append_all notLB pre (mid ++ suf)
      (fun c hc => by simp [notLB, hpre c hc])]
    rw [hmid, List.cons_append]
    exact List.dropWhile_cons_of_neg (by simp [notLB])
  obtain ⟨rtail, hrev⟩ : ∃ rtail, mid.reverse = rbrace :: rtail := by
    cases hmr : mid.reverse with
    | nil =>
      rw [List.reverse_eq_nil_iff] at hmr
      rw [hmr] at hlast
      simp at hlast
    | cons r0 rt =>
      refine ⟨rt, ?_⟩
      have : mid.reverse.head? = some rbrace := by rw [List.head?_reverse]; exact hlast
      rw [hmr] at this
      simp only [List.head?_cons, Option.some.injEq] at this
      rw [this]
  have step2 : ((mid ++ suf).reverse).dropWhile notRB = mid.reverse := by
    rw [List.reverse_append]
    rw [dropWhile_append_all notRB suf.reverse mid.reverse
      (fun c hc => by simp [notRB, hsuf c (List.mem_reverse.mp hc)])]
    rw [hrev]
    exact List.dropWhile_cons_of_neg (by simp [notRB])
  have key : (((pre ++ (mid ++ suf)).dropWhile notLB).reverse.dropWhile notRB).reverse = mid := by
    rw [step1, step2, List.reverse_reverse]
  unfold braceSpan
  rw [key]
  rw [if_neg (by simp [hmid])]

/-- A middle piece of a three-way split is one of the contiguous substrings. -/
theorem mem_allSubstrings (cs pre mid suf : List Char) (h : cs = pre ++ (mid ++ suf)) :
    mid ∈ allSubstrings cs := by
  subst h
  have hlen : (pre ++ (mid ++ suf)).length = pre.length + (mid.length + suf.length) := by
    simp [List.length_append]
  refine List.mem_flatMap.mpr ⟨pre.length, List.mem_range.mpr (by omega), ?_⟩
  refine List.mem_map.mpr ⟨mid.length, List.mem_range.mpr (by omega), ?_⟩
  rw [List.drop_left, List.take_left]

/-- A truthy possibly-undefined value yields a truthy default extraction. -/
theorem truthyOpt_getD (v : Option Json) (h : truthyOpt v = true) :
    truthy (v.getD Json.null) = true := by
  cases v with
  | none => simp [truthyOpt] at h
  | some x => simpa [truthyOpt] using h

/-- The substituted modifiedCode value is always truthy. -/
theorem truthy_jsOrRawText (v : Option Json) (text : String) :
    truthy (jsOrRawText v text) = true := by
  unfold jsOrRawText
  by_cases hv : truthyOpt v = true
  · rw [if_pos hv]
    exact truthyOpt_getD v hv
  · rw [if_neg hv]
    by_cases ht : text = ""
    · rw [if_pos ht]
      decide
    · rw [if_neg ht]
      simp [truthy, ht]

/-- The substituted explanation value is always truthy. -/
theorem truthy_jsOrMsg (v : Option Json) : truthy (jsOrMsg v) = true := by
  unfold jsOrMsg
  by_cases hv : truthyOpt v = true
  · rw [if_pos hv]
    exact truthyOpt_getD v hv
  · rw [if_neg hv]
    decide

/-- When the parsed value is an object carrying both fields with truthy
values, the post-processing returns exactly those values. -/
theorem iterateBody_fields_ok (text : String) (fs : List (String × Json)) (mc ex : Json)
    (hp : safeJsonParse text = Json.obj fs)
    (hmc : lookupField fs "modifiedCode" = some mc)
    (hex : lookupField fs "explanation" = some ex)
    (htm : truthy mc = true) (hte : truthy ex = true) :
    iterateBody text = IterateOutcome.ok mc ex := by
  simp [iterateBody, hp, jsonIsNull, jsGetD, hmc, hex, truthyOpt, htm, hte]

/-- Whenever the post-processing returns a pair of values, both are truthy. -/
theorem iterateBody_truthy (text : String) (mc ex : Json)
    (h : iterateBody text = IterateOutcome.ok mc ex) :
    truthy mc = true ∧ truthy ex = true := by
  by_cases hn : jsonIsNull (safeJsonParse text) = true
  · have hb : iterateBody text = IterateOutcome.typeError := by
      simp [iterateBody, hn]
    rw [hb] at h
    simp at h
  · by_cases hc : truthyOpt (jsGetD (safeJsonParse text) "modifiedCode") = true ∧
        truthyOpt (jsGetD (safeJsonParse text) "explanation") = true
    · have hb : iterateBody text =
          IterateOutcome.ok ((jsGetD (safeJsonParse text) "modifiedCode").getD Json.null)
            ((jsGetD (safeJsonParse text) "explanation").getD Json.null) := by
        simp [iterateBody, hn, hc.1, hc.2]
      rw [hb] at h
      injection h with h1 h2
      subst h1
      subst h2
      exact ⟨truthyOpt_getD _ hc.1, truthyOpt_getD _ hc.2⟩
    · have hcond : (!truthyOpt (jsGetD (safeJsonParse text) "modifiedCode") ||
          !truthyOpt (jsGetD (safeJsonParse text) "explanation")) = true := by
        rcases ha : truthyOpt (jsGetD (safeJsonParse text) "modifiedCode") with _ | _ <;>
          rcases hb2 : truthyOpt (jsGetD (safeJsonParse text) "explanation") with _ | _ <;>
          simp_all
      have hb : iterateBody text =
          IterateOutcome.ok (jsOrRawText (jsGetD (safeJsonParse text) "modifiedCode") text)
            (jsOrMsg (jsGetD (safeJsonParse text) "explanation")) := by
        simp [iterateBody, hn, hcond]
      rw [hb] at h
      injection h with h1 h2
      subst h1
      subst h2
      exact ⟨truthy_jsOrRawText _ _, truthy_jsOrMsg _⟩

/-- Claim C1 counterexample: for raw text that is a valid object carrying
only a modifiedCode field, the HTTP route returns that object verbatim as
its payload, and the payload has no explanation field at all. -/
theorem route_payload_may_lack_explanation :
    (POST (some "k") "c" "p" missingExplText).result =
      RouteOutcome.payload (Json.obj [("modifiedCode", Json.str "x")]) ∧
    jsGetD (Json.obj [("modifiedCode", Json.str "x")]) "explanation" = none := by
  refine ⟨rfl, rfl⟩

/-- Claim C1 (amended): every pair of values the iterateCode action
returns has both modifiedCode and explanation truthy, thanks to the
substitution branch; the HTTP route payload has no such guarantee. -/
theorem iterate_result_fields_truthy (apiKey : Option String) (code prompt genText : String)
    (mc ex : Json)
    (h : (iterateCode apiKey code prompt genText).result = IterateOutcome.ok mc ex) :
    truthy mc = true ∧ truthy ex = true := by
  by_cases hk : envTruthy apiKey = true
  · have hr : (iterateCode apiKey code prompt genText).result = iterateBody genText := by
      simp [iterateCode, hk]
    rw [hr] at h
    exact iterateBody_truthy genText mc ex h
  · have hr : (iterateCode apiKey code prompt genText).result =
        IterateOutcome.configError configMsg := by
      simp [iterateCode, hk]
    rw [hr] at h
    simp at h

/-- Witness for C1 at a parsed object missing the modifiedCode field. -/
theorem iterate_result_fields_truthy_witness :
    truthy (Json.str missingCodeText) = true ∧ truthy (Json.str "e") = true :=
  iterate_result_fields_truthy (some "k") "c" "p" missingCodeText
    (Json.str missingCodeText) (Json.str "e") rfl

/-- Claim C2 counterexample: with the API key configured, the iterateCode
action reaches the external generation call even when code is empty. -/
theorem iterate_calls_gen_despite_empty_code :
    (iterateCode (some "k") "" "add logging" "raw").calledGen = true ∧
    (iterateCode (some "k") "" "add logging" "raw").sentUserMessage =
      some (userMessage "" "add logging") := by
  refine ⟨rfl, rfl⟩

/-- Claim C2 (amended): the HTTP route rejects a request with empty code
or empty prompt as a 400 client error before reaching the generation
call; the iterateCode entry point performs no such validation. -/
theorem route_rejects_empty_input_before_call (apiKey : Option String)
    (code prompt genText : String) (h : code = "" ∨ prompt = "") :
    (POST apiKey code prompt genText).calledGen = false ∧
    (POST apiKey code prompt genText).result = RouteOutcome.badRequest badReqMsg := by
  have hcond : (code == "" || prompt == "") = true := by
    rcases h with h | h <;> simp [h]
  refine ⟨?_, ?_⟩ <;> simp [POST, hcond]

/-- Witness for C2 amended at an empty code input. -/
theorem route_rejects_empty_input_before_call_witness :
    (POST (some "k") "" "p" "raw").calledGen = false ∧
    (POST (some "k") "" "p" "raw").result = RouteOutcome.badRequest badReqMsg :=
  route_rejects_empty_input_before_call (some "k") "" "p" "raw" (Or.inl rfl)

/-- Claim C3 counterexample: on the input 42 the Normalizer returns the
parsed number, which is not an object with the two string fields. -/
theorem safeJsonParse_number_not_iteration_result :
    safeJsonParse "42" = Json.num 42 [] 0 ∧
    isIterationResult (safeJsonParse "42") = false := by
  refine ⟨rfl, rfl⟩

/-- Claim C3 (amended): safeJsonParse always terminates with a value and
never raises: the direct-parse value when the whole text parses, else the
span-parse value when the span parses, else the synthetic fallback; only
the fallback is guaranteed to be an IterationResult. -/
theorem safeJsonParse_total_trichotomy (text : String) :
    (∃ v, jsonParse text.data = some v ∧ safeJsonParse text = v) ∨
    (∃ s v, jsonParse text.data = none ∧ braceSpan text.data = some s ∧
      jsonParse s = some v ∧ safeJsonParse text = v) ∨
    (safeJsonParse text = fallbackResult text ∧
      isIterationResult (fallbackResult text) = true) := by
  cases h1 : jsonParse text.data with
  | some v => exact Or.inl ⟨v, rfl, safeJsonParse_direct text v h1⟩
  | none =>
    cases h2 : braceSpan text.data with
    | none => exact Or.inr (Or.inr ⟨safeJsonParse_fb_noSpan text h1 h2, rfl⟩)
    | some s =>
      cases h3 : jsonParse s with
      | some v =>
        exact Or.inr (Or.inl ⟨s, v, rfl, rfl, h3, safeJsonParse_span text s v h1 h2 h3⟩)
      | none => exact Or.inr (Or.inr ⟨safeJsonParse_fb_badSpan text s h1 h2 h3, rfl⟩)

/-- Claim C4 counterexample: the direct parse of the input true succeeds
with a non-object value and the Normalizer uses it directly as the result. -/
theorem direct_parse_non_object_used :
    jsonParse ("true").data = some (Json.bool true) ∧
    safeJsonParse "true" = Json.bool true ∧
    isIterationResult (Json.bool true) = false := by
  refine ⟨rfl, rfl, rfl⟩

/-- Claim C4 (amended): step 1 uses the direct parse result whenever the
parse succeeds, whatever the type of the parsed value. -/
theorem direct_parse_used_unconditionally (text : String) (v : Json)
    (h : jsonParse text.data = some v) : safeJsonParse text = v :=
  safeJsonParse_direct text v h

/-- Witness for C4 amended at a numeric input. -/
theorem direct_parse_used_unconditionally_witness :
    jsonParse ("7").data = some (Json.num 7 [] 0) ∧
    safeJsonParse "7" = Json.num 7 [] 0 :=
  ⟨rfl, direct_parse_used_unconditionally "7" (Json.num 7 [] 0) rfl⟩

/-- Claim C5 counterexample: a prose-wrapped two-field object whose
explanation value is the empty string is extracted by the Normalizer, but
the orchestrator substitutes the falsy explanation with the fixed
incomplete-response message instead of carrying it unchanged. -/
theorem wrapped_object_falsy_field_substituted :
    safeJsonParse emptyExplText =
      Json.obj [("modifiedCode", Json.str "x"), ("explanation", Json.str "")] ∧
    (iterateCode (some "k") "c" "p" emptyExplText).result =
      IterateOutcome.ok (Json.str "x") (Json.str incompleteMsg) ∧
    incompleteMsg ≠ "" := by
  refine ⟨rfl, rfl, by decide⟩

/-- Claim C5 (amended): for raw text made of a brace-free non-JSON prefix
and suffix around a valid two-field JSON object whose field values are
truthy, the Normalizer extracts exactly the embedded object and the
orchestrator result carries exactly its field values. -/
theorem wrapped_object_extracted_and_returned (text : String) (pre mid suf : List Char)
    (fs : List (String × Json)) (mc ex : Json) (apiKey : Option String) (code prompt : String)
    (hsplit : text.data = pre ++ (mid ++ suf))
    (hpre : ∀ c ∈ pre, c ≠ lbrace ∧ c ≠ rbrace)
    (hsuf : ∀ c ∈ suf, c ≠ lbrace ∧ c ≠ rbrace)
    (hhead : mid.head? = some lbrace)
    (hlast : mid.getLast? = some rbrace)
    (hdirect : jsonParse text.data = none)
    (hmid : jsonParse mid = some (Json.obj fs))
    (hmc : lookupField fs "modifiedCode" = some mc)
    (hex : lookupField fs "explanation" = some ex)
    (htm : truthy mc = true) (hte : truthy ex = true)
    (hk : envTruthy apiKey = true) :
    safeJsonParse text = Json.obj fs ∧
    (iterateCode apiKey code prompt text).result = IterateOutcome.ok mc ex := by
  have hspan : braceSpan text.data = some mid := by
    rw [hsplit]
    exact braceSpan_extract pre mid suf (fun c hc => (hpre c hc).1)
      (fun c hc => (hsuf c hc).2) hhead hlast
  have hp : safeJsonParse text = Json.obj fs :=
    safeJsonParse_span text mid (Json.obj fs) hdirect hspan hmid
  refine ⟨hp, ?_⟩
  have hr : (iterateCode apiKey code prompt text).result = iterateBody text := by
    simp [iterateCode, hk]
  rw [hr]
  exact iterateBody_fields_ok text fs mc ex hp hmc hex htm hte

/-- Witness for C5 amended at the prose-wrapped spec scenario. -/
theorem wrapped_object_extracted_and_returned_witness :
    safeJsonParse wrappedText = Json.obj wrappedFields ∧
    (iterateCode (some "k") "c" "p" wrappedText).result =
      IterateOutcome.ok (Json.str "x=1") (Json.str "set x") :=
  wrapped_object_extracted_and_returned wrappedText wrappedPre wrappedObj wrappedSuf
    wrappedFields (Json.str "x=1") (Json.str "set x") (some "k") "c" "p"
    rfl (by decide) (by decide) rfl rfl rfl rfl rfl rfl rfl rfl rfl

/-- Claim C6: a raw text that is a valid JSON object with both fields
present as non-empty strings is returned by the pipeline exactly, with
both field values unchanged. -/
theorem strict_object_returned_exactly (apiKey : Option String) (code prompt text : String)
    (fs : List (String × Json)) (mc ex : String)
    (hk : envTruthy apiKey = true)
    (hdir : jsonParse text.data = some (Json.obj fs))
    (hmc : lookupField fs "modifiedCode" = some (Json.str mc))
    (hex : lookupField fs "explanation" = some (Json.str ex))
    (hm : mc ≠ "") (he : ex ≠ "") :
    safeJsonParse text = Json.obj fs ∧
    (iterateCode apiKey code prompt text).result =
      IterateOutcome.ok (Json.str mc) (Json.str ex) := by
  have hp : safeJsonParse text = Json.obj fs := safeJsonParse_direct text (Json.obj fs) hdir
  refine ⟨hp, ?_⟩
  have hr : (iterateCode apiKey code prompt text).result = iterateBody text := by
    simp [iterateCode, hk]
  rw [hr]
  exact iterateBody_fields_ok text fs (Json.str mc) (Json.str ex) hp hmc hex
    (by simp [truthy, hm]) (by simp [truthy, he])

/-- Witness for C6 at the strict two-field spec scenario. -/
theorem strict_object_returned_exactly_witness :
    safeJsonParse strictText = Json.obj strictFields ∧
    (iterateCode (some "k") "function f()\x7b\x7d" "add logging" strictText).result =
      IterateOutcome.ok (Json.str "function f()\x7bconsole.log(1)\x7d")
        (Json.str "added log") :=
  strict_object_returned_exactly (some "k") "function f()\x7b\x7d" "add logging" strictText
    strictFields "function f()\x7bconsole.log(1)\x7d" "added log"
    rfl rfl rfl rfl (by decide) (by decide)

/-- Claim C7: a raw text none of whose contiguous substrings parses as
JSON produces the synthetic result carrying the raw text verbatim and the
fixed diagnostic explanation. -/
theorem unparseable_text_gives_fallback (text : String)
    (h : ∀ s ∈ allSubstrings text.data, (jsonParse s).isNone = true) :
    safeJsonParse text = Json.obj
      [("modifiedCode", Json.str text), ("explanation", Json.str diagMsg)] := by
  have hdir : jsonParse text.data = none := by
    have hm : text.data ∈ allSubstrings text.data :=
      mem_allSubstrings text.data [] text.data [] (by simp)
    simpa using h text.data hm
  have hfb : safeJsonParse text = fallbackResult text := by
    cases hspan : braceSpan text.data with
    | none => exact safeJsonParse_fb_noSpan text hdir hspan
    | some s =>
      obtain ⟨a, b, hab⟩ := braceSpan_sub text.data s hspan
      have hs : jsonParse s = none := by
        simpa using h s (mem_allSubstrings text.data a s b hab)
      exact safeJsonParse_fb_badSpan text s hdir hspan hs
  rw [hfb]
  rfl

/-- Witness for C7 at plain prose with no braces. -/
theorem unparseable_text_gives_fallback_witness :
    safeJsonParse proseText = Json.obj
      [("modifiedCode", Json.str proseText), ("explanation", Json.str diagMsg)] :=
  unparseable_text_gives_fallback proseText (by decide)

/-- Claim C8: with the API credential absent, both entry points fail
before the generation call with the fixed configuration message, which is
distinguishable from both generic failure messages. -/
theorem missing_key_config_error (apiKey : Option String) (code prompt genText : String)
    (hk : envTruthy apiKey = false) (hc : code ≠ "") (hp : prompt ≠ "") :
    (iterateCode apiKey code prompt genText).calledGen = false ∧
    (iterateCode apiKey code prompt genText).result = IterateOutcome.configError configMsg ∧
    (POST apiKey code prompt genText).calledGen = false ∧
    (POST apiKey code prompt genText).result = RouteOutcome.configError configMsg ∧
    configMsg ≠ genericFailMsg ∧ configMsg ≠ routeGenericMsg := by
  have hcond : (code == "" || prompt == "") = false := by
    simp [hc, hp]
  refine ⟨?_, ?_, ?_, ?_, by decide, by decide⟩ <;> simp [iterateCode, POST, hk, hcond]

/-- Witness for C8 with the key unset. -/
theorem missing_key_config_error_witness :
    (iterateCode none "c" "p" "raw").calledGen = false ∧
    (iterateCode none "c" "p" "raw").result = IterateOutcome.configError configMsg ∧
    (POST none "c" "p" "raw").calledGen = false ∧
    (POST none "c" "p" "raw").result = RouteOutcome.configError configMsg ∧
    configMsg ≠ genericFailMsg ∧ configMsg ≠ routeGenericMsg :=
  missing_key_config_error none "c" "p" "raw" rfl (by decide) (by decide)

/-- Claim C9: step 2 attempts to parse exactly the greedy span from the
first opening brace to the last closing brace, and on an input whose
embedded two-field object is followed by prose with a later stray closing
brace, that span fails to parse and the Normalizer falls through to the
synthetic raw-text result. -/
theorem greedy_span_and_stray_brace_fallthrough :
    (∀ cs s, braceSpan cs = some s →
      ∃ a b, cs = a ++ (s ++ b) ∧ (∀ c ∈ a, c ≠ lbrace) ∧ (∀ c ∈ b, c ≠ rbrace) ∧
        s.head? = some lbrace ∧ s.getLast? = some rbrace) ∧
    braceSpan strayText.data = some straySpan.data ∧
    jsonParse straySpan.data = none ∧
    safeJsonParse strayText = fallbackResult strayText := by
  refine ⟨braceSpan_decomp, rfl, rfl, rfl⟩

/-- Witness for C9: the characterization applied to the stray-brace input. -/
theorem greedy_span_and_stray_brace_fallthrough_witness :
    ∃ a b, strayText.data = a ++ (straySpan.data ++ b) ∧
      (∀ c ∈ a, c ≠ lbrace) ∧ (∀ c ∈ b, c ≠ rbrace) ∧
      straySpan.data.head? = some lbrace ∧ straySpan.data.getLast? = some rbrace :=
  greedy_span_and_stray_brace_fallthrough.1 strayText.data straySpan.data rfl

/-- Claim C10: the raw text null parses directly to the JSON null literal,
safeJsonParse returns it, and the field access in iterateCode then fails
with a TypeError, so the call fails outright instead of returning. -/
theorem null_parse_raises_type_error :
    safeJsonParse "null" = Json.null ∧
    (iterateCode (some "k") "c" "p" "null").calledGen = true ∧
    (iterateCode (some "k") "c" "p" "null").result = IterateOutcome.typeError := by
  refine ⟨rfl, rfl, rfl⟩
